import Mathlib

/-!
Verification of the secrets-to-env action (src/src/main.ts and the legacy
entry point kept in the repository) against its natural-language
specification.  The TypeScript source is shallowly embedded: JS `Map`s and
`process.env` become association lists with JS `Map.set` / object-assignment
semantics, thrown exceptions become `Except String`, and the host log sink
(`core.debug` / `core.info` / `core.warning`) becomes a list of `LogLine`s.
The subset of the host `RegExp` engine the action exercises is modelled
explicitly below.
-/

namespace SecretsToEnv

/-- The process environment: variable name to value, as an association list.
`process.env[k]` is the first binding for `k`; assignment overwrites it. -/
abbrev Env := List (String × String)

/-- A JS `Map` with string keys: an insertion-ordered association list whose
keys are unique when built from the empty map by `jsSet`. -/
abbrev JsMap (α : Type) := List (String × α)

/-- `m.get(k)` of a JS `Map` (also `process.env[k]` for `Env`). -/
def jsGet {α : Type} (m : JsMap α) (k : String) : Option α :=
  match m with
  | [] => none
  | (k1, v1) :: rest => if k1 = k then some v1 else jsGet rest k

/-- `m.set(k, v)` of a JS `Map` (also `process.env[k] = v`): an existing
binding is updated in place, a new one is appended at the end. -/
def jsSet {α : Type} (m : JsMap α) (k : String) (v : α) : JsMap α :=
  match m with
  | [] => [(k, v)]
  | (k1, v1) :: rest => if k1 = k then (k, v) :: rest else (k1, v1) :: jsSet rest k v

/-- `for (const [key, value] of es.entries()) m.set(key, value)`. -/
def setAll {α : Type} (m : JsMap α) (es : JsMap α) : JsMap α :=
  es.foldl (fun acc kv => jsSet acc kv.1 kv.2) m

/-- The keys of a map are pairwise distinct (true of every map built from the
empty map by `jsSet`, hence of the transformed mappings). -/
def NodupKeys {α : Type} (m : JsMap α) : Prop :=
  (m.map Prod.fst).Nodup

/-- JS truthiness of `process.env[k]`: `undefined` and the empty string are
falsy, every other string is truthy. -/
def envTruthy (env : Env) (k : String) : Bool :=
  match jsGet env k with
  | some v => v ≠ ""
  | none => false

/-- `s.slice(n)` on the model's character strings. -/
def strDrop (s : String) (n : Nat) : String :=
  ⟨s.data.drop n⟩

/-- Remove the first (leftmost) occurrence of the non-empty pattern `pat`
from the character list. -/
def removeFirstOcc (pat : List Char) : List Char → List Char
  | [] => []
  | c :: cs => if pat.isPrefixOf (c :: cs) then (c :: cs).drop pat.length
               else c :: removeFirstOcc pat cs

/-- JS `s.replace(pat, '')` with a *string* pattern: removes the first
occurrence of `pat`; with an empty pattern it is the identity. -/
def jsReplaceFirst (s pat : String) : String :=
  if pat.data.isEmpty then s else ⟨removeFirstOcc pat.data s.data⟩

/-- JS `v.split('').toString()`: the characters of `v` joined by commas. -/
def jsSplitJoin (v : String) : String :=
  String.intercalate "," (v.data.map Char.toString)

/-- Helper for `jsSplitComma`: accumulate the current field (reversed). -/
def splitCommaAux : List Char → List Char → List (List Char)
  | [], acc => [acc.reverse]
  | c :: cs, acc =>
    if c = ',' then acc.reverse :: splitCommaAux cs []
    else splitCommaAux cs (c :: acc)

/-- JS `s.split(',')`: split at every comma; `''.split(',')` is `['']`. -/
def jsSplitComma (s : String) : List String :=
  (splitCommaAux s.data []).map (fun l => String.mk l)

/-- JS `s.trim()`: strip whitespace from both ends. -/
def jsTrim (s : String) : String :=
  ⟨((s.data.dropWhile Char.isWhitespace).reverse.dropWhile Char.isWhitespace).reverse⟩

/- ## Model of the host RegExp subset used by the action

The action builds `new RegExp(pattern)` (include/exclude filters) and
`new RegExp('^' + removePrefix, 'i')` (prefix removal) and uses only
`key.match(r)` and `key.replace(r, '')`.  The model supports an optional
leading start anchor followed by literal characters and `.` wildcards;
every other metacharacter makes compilation fail, which models the host's
thrown `SyntaxError` for the genuinely invalid patterns (such as an
unmatched `(`) this development relies on. -/

/-- One regex atom: a literal character or the `.` wildcard. -/
inductive RAtom where
  | lit (c : Char)
  | dot
deriving DecidableEq, Repr

/-- Characters that are regex metacharacters (not plain literals). -/
def isMetaChar (c : Char) : Bool :=
  c == '\\' || c == '^' || c == '$' || c == '.' || c == '*' || c == '+' ||
  c == '?' || c == '(' || c == ')' || c == '[' || c == ']' ||
  c == Char.ofNat 123 || c == Char.ofNat 125 || c == '|'

/-- Parse the body of a pattern into atoms; any metacharacter is refused. -/
def parseAtoms : List Char → Option (List RAtom)
  | [] => some []
  | c :: cs =>
    if c = '.' then (parseAtoms cs).map (fun as => RAtom.dot :: as)
    else if isMetaChar c then none
    else (parseAtoms cs).map (fun as => RAtom.lit c :: as)

/-- A compiled regex: whether it is anchored at the start, its atoms, and
whether it carries the `i` (ignore-case) flag. -/
structure JsRegex where
  anchored : Bool
  atoms : List RAtom
  icase : Bool
deriving DecidableEq, Repr

/-- `new RegExp(pattern, icase ? 'i' : '')`: `none` models a thrown
`SyntaxError`. -/
def compileRegex (pattern : String) (icase : Bool) : Option JsRegex :=
  match pattern.data with
  | '^' :: rest => (parseAtoms rest).map (fun as => ⟨true, as, icase⟩)
  | cs => (parseAtoms cs).map (fun as => ⟨false, as, icase⟩)

/-- Message of the host's regex `SyntaxError`, as surfaced by the top-level
failure handler. -/
def invalidRegexMessage (pattern : String) : String :=
  "Invalid regular expression: /" ++ pattern ++ "/"

/-- Does one atom match one character (case-folded under the `i` flag)? -/
def matchAtom (icase : Bool) (a : RAtom) (c : Char) : Bool :=
  match a with
  | RAtom.dot => true
  | RAtom.lit l => if icase then c.toLower == l.toLower else c == l

/-- Match a list of atoms at the start of the character list, returning the
remaining characters on success. -/
def matchAtomsAt (icase : Bool) : List RAtom → List Char → Option (List Char)
  | [], cs => some cs
  | _ :: _, [] => none
  | a :: as, c :: cs => if matchAtom icase a c then matchAtomsAt icase as cs else none

/-- Search for a match at any position (an unanchored regex). -/
def searchAtoms (icase : Bool) (atoms : List RAtom) : List Char → Bool
  | [] => (matchAtomsAt icase atoms []).isSome
  | c :: cs => (matchAtomsAt icase atoms (c :: cs)).isSome || searchAtoms icase atoms cs

/-- JS `key.match(r)` read as a boolean (the action only tests truthiness). -/
def regexTest (r : JsRegex) (s : String) : Bool :=
  if r.anchored then (matchAtomsAt r.icase r.atoms s.data).isSome
  else searchAtoms r.icase r.atoms s.data

/-- JS `key.replace(r, '')` for an anchored regex: remove the matched head,
or return the string unchanged when there is no match. -/
def regexStripAnchored (r : JsRegex) (s : String) : String :=
  match matchAtomsAt r.icase r.atoms s.data with
  | some rest => ⟨rest⟩
  | none => s

/-- Does `key` start with `pat` compared case-insensitively (the literal
reading of the `remove_prefix` contract)? -/
def startsWithCI (key pat : String) : Bool :=
  (pat.data.map Char.toLower).isPrefixOf (key.data.map Char.toLower)

/-- Are all characters of the pattern plain literals (no metacharacter)? -/
def allLiteralChars (pattern : String) : Bool :=
  pattern.data.all (fun c => !isMetaChar c)

/- ## Case-conversion table

`lower` and `upper` are the JS string methods; `camel`, `constant`,
`pascal` and `snake` come from the npm packages of the same names, which
are external to the repository and are modelled here by their documented
word-splitting behavior.  No theorem below depends on the internals of
these four functions. -/

/-- Split a name into its words at `_`, `-` and space separators (model of
the npm case-conversion packages' splitter). -/
def wordsOf (s : String) : List String :=
  ((s.data.splitOnP (fun c => c == '_' || c == '-' || c == ' ')).map
    (fun l => String.mk l)).filter (fun w => w ≠ "")

/-- Uppercase the first character of a word, lowercase the rest. -/
def capitalizeWord (w : String) : String :=
  match w.data with
  | [] => ""
  | c :: cs => String.mk (c.toUpper :: cs.map Char.toLower)

/-- Modelled from the spec: the `camel-case` npm package. -/
def camelCase (s : String) : String :=
  match wordsOf s with
  | [] => ""
  | w :: ws => String.join (w.toLower :: ws.map capitalizeWord)

/-- Modelled from the spec: the `pascal-case` npm package. -/
def pascalCase (s : String) : String :=
  String.join ((wordsOf s).map capitalizeWord)

/-- Modelled from the spec: the `snake-case` npm package. -/
def snakeCase (s : String) : String :=
  String.intercalate "_" ((wordsOf s).map String.toLower)

/-- Modelled from the spec: the `constant-case` npm package. -/
def constantCase (s : String) : String :=
  String.intercalate "_" ((wordsOf s).map String.toUpper)

/-- The `convertTypes` dispatch table of src/src/main.ts: mode name to pure
string transform; `none` for an unknown mode. -/
def convertTypes (mode : String) : Option (String → String) :=
  if mode = "lower" then some String.toLower
  else if mode = "upper" then some String.toUpper
  else if mode = "camel" then some camelCase
  else if mode = "constant" then some constantCase
  else if mode = "pascal" then some pascalCase
  else if mode = "snake" then some snakeCase
  else none

/-- Message thrown for an unknown convert mode (src/src/main.ts lines 76-80). -/
def unknownConvertMessage (mode : String) : String :=
  "Unknown convert value \"" ++ mode ++
    "\". Available: lower, upper, camel, constant, pascal, snake"

/- ## The transformation pipeline of src/src/main.ts -/

/-- The `SourceType` union of src/src/main.ts. -/
inductive SourceType where
  | secret
  | var
deriving DecidableEq, Repr

/-- The string a `SourceType` interpolates to in log lines. -/
def sourceStr : SourceType → String
  | SourceType.secret => "secret"
  | SourceType.var => "var"

/-- The `ProcessedVariable` record of src/src/main.ts. -/
structure ProcessedVariable where
  value : String
  source : SourceType
  originalKey : String
deriving DecidableEq, Repr

/-- The `ProcessingConfig` record of src/src/main.ts. -/
structure ProcessingConfig where
  includeList : Option (List String)
  excludeList : List String
  removePrefix : String
  keyPrefix : String
  convert : String
  convertPrefix : Bool
deriving DecidableEq, Repr

/-- One line sent to the host logger. -/
inductive LogLine where
  | debug (msg : String)
  | info (msg : String)
  | warning (msg : String)
deriving DecidableEq, Repr

/-- JS `patterns.some(p => key.match(new RegExp(p)))`: the regexes are
compiled one per pattern inside the callback, left to right, short-circuiting
on the first match; an invalid pattern throws at its turn. -/
def someMatch (patterns : List String) (key : String) : Except String Bool :=
  match patterns with
  | [] => Except.ok false
  | p :: ps =>
    match compileRegex p false with
    | none => Except.error (invalidRegexMessage p)
    | some r => if regexTest r key then Except.ok true else someMatch ps key

/-- The include/exclude filtering of one key (src/src/main.ts lines 44-55):
`ok true` means the entry is dropped, `ok false` that it survives. -/
def filtersDrop (config : ProcessingConfig) (key : String) : Except String Bool :=
  match config.includeList with
  | some incs => do
    let matched ← someMatch incs key
    if !matched then Except.ok true
    else do
      let excluded ← someMatch config.excludeList key
      Except.ok excluded
  | none => do
    let excluded ← someMatch config.excludeList key
    Except.ok excluded

/-- The prefix-removal step (src/src/main.ts lines 59-68): when
`removePrefix` is non-empty, `new RegExp('^' + removePrefix, 'i')` is
matched against the key and a match is stripped. -/
def stripKeyStep (config : ProcessingConfig) (key : String) : Except String String :=
  if config.removePrefix.length ≠ 0 then
    match compileRegex ("^" ++ config.removePrefix) true with
    | none => Except.error (invalidRegexMessage ("^" ++ config.removePrefix))
    | some r => if regexTest r key then Except.ok (regexStripAnchored r key) else Except.ok key
  else Except.ok key

/-- Steps 3-5 of the per-key transformation (src/src/main.ts lines 57-90):
prefix removal, prefix addition, then case conversion. -/
def transformKey (config : ProcessingConfig) (key : String) : Except String String :=
  match stripKeyStep config key with
  | Except.error e => Except.error e
  | Except.ok k1 =>
    let k2 := if config.keyPrefix.length ≠ 0 then config.keyPrefix ++ k1 else k1
    if config.convert.length ≠ 0 then
      match convertTypes config.convert with
      | none => Except.error (unknownConvertMessage config.convert)
      | some f =>
        if !config.convertPrefix then
          Except.ok (config.keyPrefix ++ f (jsReplaceFirst k2 config.keyPrefix))
        else
          Except.ok (f k2)
    else Except.ok k2

/-- The body of the `processVariables` loop for one raw entry. -/
def processEntry (config : ProcessingConfig) (source : SourceType)
    (processed : JsMap ProcessedVariable) (key value : String) :
    Except String (JsMap ProcessedVariable) := do
  let drop ← filtersDrop config key
  if drop then Except.ok processed
  else do
    let newKey ← transformKey config key
    Except.ok (jsSet processed newKey ⟨value, source, key⟩)

/-- `processVariables` of src/src/main.ts: transform every raw entry,
keyed by its final name. -/
def processVariables (vs : List (String × String)) (source : SourceType)
    (config : ProcessingConfig) : Except String (JsMap ProcessedVariable) :=
  vs.foldlM (fun m kv => processEntry config source m kv.1 kv.2) []

/-- One collision record of `detectCollisions`. -/
structure CollisionRecord where
  finalKey : String
  secretOriginal : String
  varOriginal : String
deriving DecidableEq, Repr

/-- `detectCollisions` of src/src/main.ts: one record per entry of the
secrets map whose final key also appears in the vars map. -/
def detectCollisions (secretsMap varsMap : JsMap ProcessedVariable) :
    List CollisionRecord :=
  secretsMap.filterMap (fun kv =>
    (jsGet varsMap kv.1).map (fun varVar =>
      ⟨kv.1, kv.2.originalKey, varVar.originalKey⟩))

/-- One detail line of the collision error message. -/
def collisionLine (c : CollisionRecord) : String :=
  "  - " ++ c.finalKey ++ " (from secret: " ++ c.secretOriginal ++
    " and var: " ++ c.varOriginal ++ ")"

/-- The message thrown under the `error` strategy (src/src/main.ts
lines 144-146). -/
def collisionErrorMessage (collisions : List CollisionRecord) : String :=
  "Collision detected: The following environment variable names would be exported by both secrets and vars after processing:\n" ++
    String.intercalate "\n" (collisions.map collisionLine) ++
    "\n\nThis occurs because the same final environment variable name is produced after applying include/exclude filters, prefix manipulation, and case conversion.\n\nTo resolve:\n1. Use on_collision: 'prefer-secrets' or 'prefer-vars' to choose which source takes precedence\n2. Use on_collision: 'warn' to allow collisions with a warning\n3. Adjust include/exclude/prefix/convert settings to avoid name collisions"

/-- The warning logged per collision under the `warn` strategy
(src/src/main.ts lines 166-173). -/
def collisionWarning (c : CollisionRecord) : LogLine :=
  LogLine.warning
    ("Collision detected for environment variable \"" ++ c.finalKey ++ "\"\n" ++
      "  - From secret: " ++ c.secretOriginal ++ "\n" ++
      "  - From var: " ++ c.varOriginal ++ "\n" ++
      "Using value from secret (on_collision: warn)")

/-- The merge phase of `mergeAndExport` (src/src/main.ts lines 132-191):
produce the merged map and the warnings logged before the export loop,
or throw under the `error` strategy.  The strategy is the raw input string,
as in the TypeScript where the union type is erased at runtime. -/
def computeMerged (secretsMap varsMap : JsMap ProcessedVariable)
    (strategy : String) : Except String (JsMap ProcessedVariable × List LogLine) :=
  if strategy = "error" then
    let collisions := detectCollisions secretsMap varsMap
    if collisions.length > 0 then
      Except.error (collisionErrorMessage collisions)
    else
      Except.ok (setAll (setAll [] varsMap) secretsMap, [])
  else if strategy = "warn" then
    let collisions := detectCollisions secretsMap varsMap
    Except.ok (setAll (setAll [] varsMap) secretsMap, collisions.map collisionWarning)
  else if strategy = "prefer-vars" then
    Except.ok (setAll (setAll [] secretsMap) varsMap, [])
  else
    Except.ok (setAll (setAll [] varsMap) secretsMap, [])

/-- One iteration of the export loop (src/src/main.ts lines 194-206). -/
def exportStep (override : Bool) (acc : Env × List LogLine)
    (kv : String × ProcessedVariable) : Env × List LogLine :=
  if envTruthy acc.1 kv.1 then
    if override then
      (jsSet acc.1 kv.1 kv.2.value,
        acc.2 ++ [LogLine.warning ("Will re-write \"" ++ kv.1 ++ "\" environment variable."),
          LogLine.info ("Exported " ++ sourceStr kv.2.source ++ " " ++ kv.1)])
    else
      (acc.1, acc.2 ++ [LogLine.info ("Skip overwriting " ++ sourceStr kv.2.source ++ " " ++ kv.1)])
  else
    (jsSet acc.1 kv.1 kv.2.value,
      acc.2 ++ [LogLine.info ("Exported " ++ sourceStr kv.2.source ++ " " ++ kv.1)])

/-- The export loop of `mergeAndExport`: walk the merged map, respecting the
override policy, returning the final environment and the log lines. -/
def exportLoop (merged : JsMap ProcessedVariable) (override : Bool) (env : Env) :
    Env × List LogLine :=
  merged.foldl (exportStep override) (env, [])

/-- `mergeAndExport` of src/src/main.ts: merge under the strategy, then
export; the export loop itself cannot throw. -/
def mergeAndExport (secretsMap varsMap : JsMap ProcessedVariable)
    (strategy : String) (override : Bool) (env : Env) :
    Except String (Env × List LogLine) := do
  let (merged, warnLogs) ← computeMerged secretsMap varsMap strategy
  let (env1, exportLogs) := exportLoop merged override env
  Except.ok (env1, warnLogs ++ exportLogs)

/- ## The `run` entry point of src/src/main.ts

JSON parsing of the `secrets` and `vars` inputs is done by the host
`JSON.parse`; the model receives the two mappings already parsed. -/

/-- The raw string inputs of the action, with `secrets` and `vars` already
parsed into mappings. -/
structure RunInput where
  secrets : List (String × String)
  vars : List (String × String)
  keyPrefix : String
  removePrefix : String
  includeListStr : String
  excludeListStr : String
  convert : String
  convertPrefixStr : String
  overrideStr : String
  onCollisionStr : String
deriving DecidableEq, Repr

/-- The valid `on_collision` values (src/src/main.ts lines 236-241). -/
def validStrategies : List String :=
  ["prefer-secrets", "prefer-vars", "error", "warn"]

/-- `(onCollisionStr as CollisionStrategy) || 'prefer-secrets'`: the empty
string is falsy and selects the default. -/
def resolveStrategy (onCollisionStr : String) : String :=
  if onCollisionStr = "" then "prefer-secrets" else onCollisionStr

/-- Message thrown for an invalid `on_collision` value. -/
def invalidStrategyMessage (onCollisionStr : String) : String :=
  "Invalid on_collision value \"" ++ onCollisionStr ++
    "\". Valid values: prefer-secrets, prefer-vars, error, warn"

/-- The exclude list of `run`: seeded with the always-excluded reserved name
`github_token`, then extended with the caller's comma-separated patterns. -/
def buildExcludeList (excludeListStr : String) : List String :=
  let base := ["github_token"]
  if excludeListStr.length ≠ 0 then
    base ++ (jsSplitComma excludeListStr).map jsTrim
  else base

/-- The `ProcessingConfig` built by `run` from the raw inputs. -/
def configOf (inp : RunInput) : ProcessingConfig :=
  { includeList :=
      if inp.includeListStr.length ≠ 0 then
        some ((jsSplitComma inp.includeListStr).map jsTrim)
      else none
    excludeList := buildExcludeList inp.excludeListStr
    removePrefix := inp.removePrefix
    keyPrefix := inp.keyPrefix
    convert := inp.convert
    convertPrefix :=
      if inp.convertPrefixStr.length ≠ 0 then inp.convertPrefixStr == "true" else true }

/-- The override flag of `run`: `'true'`-string when set, default true. -/
def overrideOf (inp : RunInput) : Bool :=
  if inp.overrideStr.length ≠ 0 then inp.overrideStr == "true" else true

/-- The body of `run` inside its try block: validate the strategy, process
both sources, merge and export. -/
def runBody (inp : RunInput) (env : Env) : Except String (Env × List LogLine) :=
  if inp.onCollisionStr ≠ "" ∧ resolveStrategy inp.onCollisionStr ∉ validStrategies then
    Except.error (invalidStrategyMessage inp.onCollisionStr)
  else do
    let secretsMap ← processVariables inp.secrets SourceType.secret (configOf inp)
    let varsMap ← processVariables inp.vars SourceType.var (configOf inp)
    mergeAndExport secretsMap varsMap (resolveStrategy inp.onCollisionStr)
      (overrideOf inp) env

/-- `run` with its top-level catch: on a thrown error the failure message is
reported through `core.setFailed` and the environment is left as it was
(no export precedes any throw). -/
def runModel (inp : RunInput) (env : Env) : Env × List LogLine × Option String :=
  match runBody inp env with
  | Except.ok (env1, logs) => (env1, logs, none)
  | Except.error msg => (env, [], some msg)

namespace Legacy

/-- The `run` of the legacy entry point (src/unnamed/part_001): for every
secret, prepend the prefix, warn when the target variable is truthy, log
`secrets[key].split('').toString()` — the secret's value, comma-separated —
then export; finally log `Got Secrets!`. -/
def run (secrets : List (String × String)) (keyPrefix : String) (env : Env) :
    Env × List LogLine :=
  let step := fun (acc : Env × List LogLine) (kv : String × String) =>
    let newKey := if keyPrefix.length ≠ 0 then keyPrefix ++ kv.1 else kv.1
    let warns := if envTruthy acc.1 newKey then
        [LogLine.warning ("Will re-write \"" ++ newKey ++ "\" environment variable.")]
      else []
    (jsSet acc.1 newKey kv.2,
      acc.2 ++ warns ++ [LogLine.info (jsSplitJoin kv.2)])
  let (env1, logs) := secrets.foldl step (env, [])
  (env1, logs ++ [LogLine.info "Got Secrets!"])

end Legacy

/- ## Supporting lemmas -/

instance instDecEqExcept {ε α : Type} [DecidableEq ε] [DecidableEq α] :
    DecidableEq (Except ε α) := fun a b =>
  match a, b with
  | Except.ok x, Except.ok y =>
    if h : x = y then isTrue (by rw [h]) else isFalse (fun hh => h (Except.ok.inj hh))
  | Except.error x, Except.error y =>
    if h : x = y then isTrue (by rw [h]) else isFalse (fun hh => h (Except.error.inj hh))
  | Except.ok _, Except.error _ => isFalse (fun hh => Except.noConfusion hh)
  | Except.error _, Except.ok _ => isFalse (fun hh => Except.noConfusion hh)

theorem jsGet_jsSet_self {α : Type} (m : JsMap α) (k : String) (v : α) :
    jsGet (jsSet m k v) k = some v := by
  induction m with
  | nil => simp [jsSet, jsGet]
  | cons kv rest ih =>
    by_cases h : kv.1 = k
    · simp [jsSet, jsGet, h]
    · simp [jsSet, jsGet, h, ih]

theorem jsGet_jsSet_ne {α : Type} (m : JsMap α) (k k1 : String) (v : α)
    (h : k1 ≠ k) : jsGet (jsSet m k v) k1 = jsGet m k1 := by
  have h1 : ¬(k = k1) := fun hh => h hh.symm
  induction m with
  | nil => simp [jsSet, jsGet, h1]
  | cons kv rest ih =>
    by_cases hk : kv.1 = k
    · simp [jsSet, jsGet, hk, h1]
    · simp only [jsSet, hk, if_false]
      by_cases hk1 : kv.1 = k1 <;> simp [jsGet, hk1, ih]

theorem jsGet_eq_none_of_not_mem {α : Type} (m : JsMap α) (k : String)
    (h : k ∉ m.map Prod.fst) : jsGet m k = none := by
  induction m with
  | nil => rfl
  | cons kv rest ih =>
    simp only [List.map_cons, List.mem_cons] at h
    push_neg at h
    have h1 : ¬(kv.1 = k) := fun hh => h.1 hh.symm
    simp [jsGet, h1, ih h.2]

theorem jsGet_isSome_of_mem {α : Type} (m : JsMap α) (k : String)
    (h : k ∈ m.map Prod.fst) : (jsGet m k).isSome := by
  induction m with
  | nil => simp at h
  | cons kv rest ih =>
    by_cases hk : kv.1 = k
    · simp [jsGet, hk]
    · simp only [List.map_cons, List.mem_cons] at h
      rcases h with h | h
      · exact absurd h.symm hk
      · simp [jsGet, hk, ih h]

theorem mem_keys_of_jsGet_isSome {α : Type} (m : JsMap α) (k : String)
    (h : (jsGet m k).isSome) : k ∈ m.map Prod.fst := by
  induction m with
  | nil => simp [jsGet] at h
  | cons kv rest ih =>
    by_cases hk : kv.1 = k
    · simp [hk]
    · simp only [jsGet, hk, if_false] at h
      simp [ih h]

theorem mem_of_jsGet_eq_some {α : Type} (m : JsMap α) (k : String) (v : α)
    (h : jsGet m k = some v) : (k, v) ∈ m := by
  induction m with
  | nil => simp [jsGet] at h
  | cons kv rest ih =>
    by_cases hk : kv.1 = k
    · simp only [jsGet, hk, if_true, Option.some.injEq] at h
      subst hk
      rw [← h]
      simp
    · simp only [jsGet, hk, if_false] at h
      exact List.mem_cons_of_mem _ (ih h)

theorem mem_jsSet {α : Type} (m : JsMap α) (k : String) (v : α) (kv : String × α)
    (h : kv ∈ jsSet m k v) : kv = (k, v) ∨ kv ∈ m := by
  induction m with
  | nil => simpa [jsSet] using h
  | cons kv1 rest ih =>
    by_cases hk : kv1.1 = k
    · simp only [jsSet, hk, if_true, List.mem_cons] at h
      rcases h with h | h
      · exact Or.inl h
      · exact Or.inr (List.mem_cons_of_mem _ h)
    · simp only [jsSet, hk, if_false, List.mem_cons] at h
      rcases h with h | h
      · exact Or.inr (by simp [h])
      · rcases ih h with h1 | h1
        · exact Or.inl h1
        · exact Or.inr (List.mem_cons_of_mem _ h1)

theorem jsGet_setAll {α : Type} (es : JsMap α) (m : JsMap α) (k : String)
    (h : NodupKeys es) :
    jsGet (setAll m es) k =
      (match jsGet es k with
       | some v => some v
       | none => jsGet m k) := by
  induction es generalizing m with
  | nil => simp [setAll, jsGet]
  | cons kv rest ih =>
    have hstep : setAll m (kv :: rest) = setAll (jsSet m kv.1 kv.2) rest := rfl
    simp only [NodupKeys, List.map_cons, List.nodup_cons] at h
    rw [hstep, ih _ h.2]
    by_cases hk : kv.1 = k
    · have hnone : jsGet rest k = none := by
        apply jsGet_eq_none_of_not_mem
        rw [hk] at h
        exact h.1
      have hl : jsGet (jsSet m kv.1 kv.2) k = some kv.2 := by
        rw [hk]
        exact jsGet_jsSet_self m k kv.2
      rw [hnone]
      simp [jsGet, hk, hl]
      exact jsGet_jsSet_self m k kv.2
    · cases hrest : jsGet rest k with
      | some v => simp [jsGet, hk, hrest]
      | none =>
        have hne : k ≠ kv.1 := fun hh => hk hh.symm
        simp [jsGet, hk, hrest, jsGet_jsSet_ne _ _ _ _ hne]

theorem detectCollisions_keys (S V : JsMap ProcessedVariable) :
    (detectCollisions S V).map CollisionRecord.finalKey =
      (S.map Prod.fst).filter (fun k => (jsGet V k).isSome) := by
  induction S with
  | nil => rfl
  | cons kv rest ih =>
    cases hv : jsGet V kv.1 with
    | some vv => simp [detectCollisions, List.filterMap_cons, hv, List.filter_cons] at ih ⊢
                 exact ih
    | none => simp [detectCollisions, List.filterMap_cons, hv, List.filter_cons] at ih ⊢
              exact ih

theorem detectCollisions_eq_nil_iff (S V : JsMap ProcessedVariable) :
    detectCollisions S V = [] ↔
      ¬∃ k, (jsGet S k).isSome ∧ (jsGet V k).isSome := by
  constructor
  · intro hnil ⟨k, hS, hV⟩
    cases hgs : jsGet S k with
    | none => rw [hgs] at hS; simp at hS
    | some e =>
      have hmem : (k, e) ∈ S := mem_of_jsGet_eq_some S k e hgs
      cases hgv : jsGet V k with
      | none => rw [hgv] at hV; simp at hV
      | some vv =>
        have : (⟨k, e.originalKey, vv.originalKey⟩ : CollisionRecord) ∈ detectCollisions S V := by
          apply List.mem_filterMap.mpr
          exact ⟨(k, e), hmem, by simp [hgv]⟩
        rw [hnil] at this
        simp at this
  · intro hno
    by_contra hne
    cases hc : detectCollisions S V with
    | nil => exact hne hc
    | cons c cs =>
      have hmem : c ∈ detectCollisions S V := by rw [hc]; simp
      rcases List.mem_filterMap.mp hmem with ⟨kv, hkv, hcol⟩
      cases hgv : jsGet V kv.1 with
      | none => rw [hgv] at hcol; simp at hcol
      | some vv =>
        apply hno
        refine ⟨kv.1, ?_, by simp [hgv]⟩
        apply jsGet_isSome_of_mem
        exact List.mem_map_of_mem Prod.fst hkv

theorem exportStep_acc (ov : Bool) (e : Env) (g : List LogLine)
    (kv : String × ProcessedVariable) :
    exportStep ov (e, g) kv =
      ((exportStep ov (e, []) kv).1, g ++ (exportStep ov (e, []) kv).2) := by
  simp only [exportStep]
  split
  · split <;> simp
  · simp

theorem exportLoop_acc (ov : Bool) (l : JsMap ProcessedVariable) :
    ∀ (e : Env) (g : List LogLine),
      l.foldl (exportStep ov) (e, g) =
        ((exportLoop l ov e).1, g ++ (exportLoop l ov e).2) := by
  induction l with
  | nil => intro e g; simp [exportLoop]
  | cons kv rest ih =>
    intro e g
    have h1 : (kv :: rest).foldl (exportStep ov) (e, g) =
        rest.foldl (exportStep ov) (exportStep ov (e, g) kv) := rfl
    rw [h1, exportStep_acc]
    rw [ih (exportStep ov (e, []) kv).1 (g ++ (exportStep ov (e, []) kv).2)]
    have h2 : exportLoop (kv :: rest) ov e =
        rest.foldl (exportStep ov) (exportStep ov (e, []) kv) := rfl
    rw [h2, ih (exportStep ov (e, []) kv).1 (exportStep ov (e, []) kv).2]
    simp

theorem exportLoop_append (l1 l2 : JsMap ProcessedVariable) (ov : Bool) (env : Env) :
    exportLoop (l1 ++ l2) ov env =
      ((exportLoop l2 ov (exportLoop l1 ov env).1).1,
        (exportLoop l1 ov env).2 ++ (exportLoop l2 ov (exportLoop l1 ov env).1).2) := by
  have h1 : exportLoop (l1 ++ l2) ov env =
      l2.foldl (exportStep ov) (l1.foldl (exportStep ov) (env, [])) := by
    simp [exportLoop, List.foldl_append]
  rw [h1]
  have h2 : l1.foldl (exportStep ov) (env, ([] : List LogLine)) =
      ((exportLoop l1 ov env).1, (exportLoop l1 ov env).2) := rfl
  rw [h2, exportLoop_acc]

theorem exportStep_env_ne (ov : Bool) (e : Env) (g : List LogLine)
    (kv : String × ProcessedVariable) (k : String) (h : k ≠ kv.1) :
    jsGet (exportStep ov (e, g) kv).1 k = jsGet e k := by
  simp only [exportStep]
  split
  · split <;> simp [jsGet_jsSet_ne _ _ _ _ h]
  · simp [jsGet_jsSet_ne _ _ _ _ h]

theorem exportLoop_env_not_mem (l : JsMap ProcessedVariable) (ov : Bool) :
    ∀ (env : Env) (k : String), k ∉ l.map Prod.fst →
      jsGet (exportLoop l ov env).1 k = jsGet env k := by
  induction l with
  | nil => intro env k _; rfl
  | cons kv rest ih =>
    intro env k h
    simp only [List.map_cons, List.mem_cons] at h
    push_neg at h
    have h1 : exportLoop (kv :: rest) ov env =
        rest.foldl (exportStep ov) (exportStep ov (env, []) kv) := rfl
    rw [h1, exportLoop_acc]
    rw [ih (exportStep ov (env, []) kv).1 k h.2]
    exact exportStep_env_ne ov env [] kv k h.1

theorem string_eq_empty_of_length_eq_zero (s : String) (h : s.length = 0) :
    s = "" := by
  cases s with
  | mk data =>
    simp only [String.length] at h
    rw [List.length_eq_zero] at h
    rw [h]

theorem removeFirstOcc_append (pat rest : List Char) (h : pat ≠ []) :
    removeFirstOcc pat (pat ++ rest) = rest := by
  cases pat with
  | nil => exact absurd rfl h
  | cons c cs =>
    have hpre : (c :: cs).isPrefixOf ((c :: cs) ++ rest) = true :=
      List.isPrefixOf_iff_prefix.mpr (List.prefix_append _ _)
    rw [show removeFirstOcc (c :: cs) ((c :: cs) ++ rest) =
        (if (c :: cs).isPrefixOf ((c :: cs) ++ rest) then
          ((c :: cs) ++ rest).drop (c :: cs).length
         else c :: removeFirstOcc (c :: cs) (cs ++ rest)) from rfl,
      if_pos hpre]
    exact List.drop_left _ _

theorem jsReplaceFirst_append (q r : String) :
    jsReplaceFirst (if q.length ≠ 0 then q ++ r else r) q = r := by
  by_cases hq : q.length = 0
  · have hq1 : q = "" := string_eq_empty_of_length_eq_zero q hq
    subst hq1
    simp [jsReplaceFirst, List.isEmpty]
  · have hq2 : q.data ≠ [] := by
      intro hh
      exact hq (by simp [String.length, hh])
    have hne : ¬(q.data.isEmpty = true) := by
      cases hd : q.data with
      | nil => exact absurd hd hq2
      | cons a l => simp [List.isEmpty]
    simp only [hq, if_true, ne_eq, not_false_iff, jsReplaceFirst, hne, if_false]
    rw [String.data_append, removeFirstOcc_append q.data r.data hq2]
    cases r with
    | mk d => simp

theorem convertTypes_ne_empty (m : String) (f : String → String)
    (h : convertTypes m = some f) : m.length ≠ 0 := by
  intro hlen
  have hm : m = "" := string_eq_empty_of_length_eq_zero m hlen
  subst hm
  simp [convertTypes] at h

theorem parseAtoms_literal (cs : List Char) (h : ∀ c ∈ cs, isMetaChar c = false) :
    parseAtoms cs = some (cs.map RAtom.lit) := by
  induction cs with
  | nil => rfl
  | cons c rest ih =>
    have hc : isMetaChar c = false := h c (by simp)
    have hdot : ¬(c = '.') := by
      intro hh
      subst hh
      simp [isMetaChar] at hc
    simp only [parseAtoms, hdot, if_false, hc, Bool.false_eq_true, List.map_cons]
    rw [ih (fun c1 hc1 => h c1 (List.mem_cons_of_mem _ hc1))]
    rfl

theorem matchAtomsAt_lit (cs : List Char) :
    ∀ ds : List Char,
      matchAtomsAt true (cs.map RAtom.lit) ds =
        (if (cs.map Char.toLower).isPrefixOf (ds.map Char.toLower) then
          some (ds.drop cs.length) else none) := by
  induction cs with
  | nil => intro ds; simp [matchAtomsAt, List.isPrefixOf]
  | cons c rest ih =>
    intro ds
    cases ds with
    | nil => simp [matchAtomsAt, List.isPrefixOf]
    | cons d ds1 =>
      simp only [List.map_cons, matchAtomsAt, matchAtom, if_true]
      by_cases hcd : d.toLower = c.toLower
      · have hbeq : (d.toLower == c.toLower) = true := by simp [hcd]
        have hbeq2 : (c.toLower == d.toLower) = true := by simp [hcd]
        simp only [hbeq, if_true, List.isPrefixOf, hbeq2, Bool.true_and]
        rw [ih ds1]
        simp [List.length_cons, List.drop]
      · have hcd2 : ¬(c.toLower = d.toLower) := fun hh => hcd hh.symm
        have hbeq : ¬((d.toLower == c.toLower) = true) := by simp [hcd]
        have hbeq2 : ¬((c.toLower == d.toLower) = true) := by simp [hcd2]
        simp [hbeq, List.isPrefixOf, hbeq2]

theorem compileRegex_literal (p : String) (h : allLiteralChars p = true) :
    compileRegex ("^" ++ p) true = some ⟨true, p.data.map RAtom.lit, true⟩ := by
  have hdata : ("^" ++ p).data = '^' :: p.data := by
    rw [String.data_append]
    rfl
  simp only [compileRegex, hdata]
  rw [parseAtoms_literal p.data ?_]
  · rfl
  · intro c hc
    simp only [allLiteralChars, List.all_eq_true] at h
    have := h c hc
    simp only [Bool.not_eq_true'] at this
    exact this

theorem stripKeyStep_literal (config : ProcessingConfig) (key : String)
    (hlen : config.removePrefix.length ≠ 0)
    (hlit : allLiteralChars config.removePrefix = true) :
    stripKeyStep config key =
      Except.ok (if startsWithCI key config.removePrefix = true then
        strDrop key config.removePrefix.length else key) := by
  have hstep : stripKeyStep config key =
      (match compileRegex ("^" ++ config.removePrefix) true with
       | none => Except.error (invalidRegexMessage ("^" ++ config.removePrefix))
       | some r => if regexTest r key then Except.ok (regexStripAnchored r key)
                   else Except.ok key) := by
    simp [stripKeyStep, hlen]
  rw [hstep, compileRegex_literal config.removePrefix hlit]
  have hm := matchAtomsAt_lit config.removePrefix.data key.data
  by_cases hpre : startsWithCI key config.removePrefix = true
  · have hpl : (config.removePrefix.data.map Char.toLower).isPrefixOf
        (key.data.map Char.toLower) = true := hpre
    rw [if_pos hpl] at hm
    have htest : regexTest ⟨true, config.removePrefix.data.map RAtom.lit, true⟩ key = true := by
      simp [regexTest, hm]
    have hstrip : regexStripAnchored ⟨true, config.removePrefix.data.map RAtom.lit, true⟩ key =
        strDrop key config.removePrefix.length := by
      simp only [regexStripAnchored, hm]
      rfl
    simp [htest, hstrip, hpre]
  · have hpl : ¬((config.removePrefix.data.map Char.toLower).isPrefixOf
        (key.data.map Char.toLower) = true) := hpre
    rw [if_neg hpl] at hm
    have htest : regexTest ⟨true, config.removePrefix.data.map RAtom.lit, true⟩ key = false := by
      simp [regexTest, hm]
    simp [htest, hpre]

theorem except_bind_ok {ε α β : Type} (a : α) (f : α → Except ε β) :
    (Except.ok a >>= f) = f a := rfl

theorem except_bind_error {ε α β : Type} (e : ε) (f : α → Except ε β) :
    ((Except.error e : Except ε α) >>= f) = Except.error e := rfl

theorem buildExcludeList_head (s : String) :
    ∃ t, buildExcludeList s = "github_token" :: t := by
  unfold buildExcludeList
  split
  · exact ⟨_, rfl⟩
  · exact ⟨[], rfl⟩

theorem someMatch_github (s : String) :
    someMatch (buildExcludeList s) "github_token" = Except.ok true := by
  obtain ⟨t, ht⟩ := buildExcludeList_head s
  rw [ht]
  rfl

theorem filtersDrop_reserved (config : ProcessingConfig) (s : String)
    (hx : config.excludeList = buildExcludeList s) :
    filtersDrop config "github_token" ≠ Except.ok false := by
  unfold filtersDrop
  cases hinc : config.includeList with
  | none =>
    rw [hx, someMatch_github, except_bind_ok]
    simp
  | some incs =>
    cases hm : someMatch incs "github_token" with
    | error e => simp [hm, except_bind_error]
    | ok matched =>
      cases matched with
      | false => simp [hm, except_bind_ok]
      | true => simp [hm, except_bind_ok, hx, someMatch_github]

theorem processEntry_drop (config : ProcessingConfig) (src : SourceType)
    (m : JsMap ProcessedVariable) (k v : String)
    (h : filtersDrop config k = Except.ok true) :
    processEntry config src m k v = Except.ok m := by
  unfold processEntry
  rw [h, except_bind_ok]
  rfl

theorem foldlM_drop_all (config : ProcessingConfig) (src : SourceType) :
    ∀ (entries : List (String × String)) (acc : JsMap ProcessedVariable),
      (∀ kv ∈ entries, filtersDrop config kv.1 = Except.ok true) →
      entries.foldlM (fun m kv => processEntry config src m kv.1 kv.2) acc =
        Except.ok acc := by
  intro entries
  induction entries with
  | nil => intro acc _; rfl
  | cons kv rest ih =>
    intro acc hall
    rw [List.foldlM_cons,
      processEntry_drop config src acc kv.1 kv.2 (hall kv (List.mem_cons_self _ _)),
      except_bind_ok]
    exact ih acc (fun kv1 h1 => hall kv1 (List.mem_cons_of_mem _ h1))

theorem processVariables_drop_all (config : ProcessingConfig) (src : SourceType)
    (entries : List (String × String))
    (h : ∀ kv ∈ entries, filtersDrop config kv.1 = Except.ok true) :
    processVariables entries src config = Except.ok [] := by
  unfold processVariables
  exact foldlM_drop_all config src entries [] h

theorem processEntry_preserves (config : ProcessingConfig) (src : SourceType) (s : String)
    (hx : config.excludeList = buildExcludeList s) (acc acc1 : JsMap ProcessedVariable)
    (k v : String) (hpe : processEntry config src acc k v = Except.ok acc1)
    (hacc : ∀ kv ∈ acc, kv.2.originalKey ≠ "github_token") :
    ∀ kv ∈ acc1, kv.2.originalKey ≠ "github_token" := by
  unfold processEntry at hpe
  cases hfd : filtersDrop config k with
  | error e =>
    rw [hfd, except_bind_error] at hpe
    exact Except.noConfusion hpe
  | ok drop =>
    rw [hfd, except_bind_ok] at hpe
    cases drop with
    | true =>
      have : acc = acc1 := Except.ok.inj hpe
      rw [← this]
      exact hacc
    | false =>
      have hk : k ≠ "github_token" := by
        intro hh
        rw [hh] at hfd
        exact filtersDrop_reserved config s hx hfd
      simp only [if_false, Bool.false_eq_true] at hpe
      cases htk : transformKey config k with
      | error e =>
        rw [htk, except_bind_error] at hpe
        exact Except.noConfusion hpe
      | ok nk =>
        rw [htk, except_bind_ok] at hpe
        have hset : jsSet acc nk ⟨v, src, k⟩ = acc1 := Except.ok.inj hpe
        intro kv hkv
        rw [← hset] at hkv
        rcases mem_jsSet acc nk ⟨v, src, k⟩ kv hkv with h1 | h1
        · rw [h1]
          exact hk
        · exact hacc kv h1

theorem foldlM_no_reserved (config : ProcessingConfig) (src : SourceType)
    (s : String) (hx : config.excludeList = buildExcludeList s) :
    ∀ (entries : List (String × String)) (acc mm : JsMap ProcessedVariable),
      (∀ kv ∈ acc, kv.2.originalKey ≠ "github_token") →
      entries.foldlM (fun m1 kv => processEntry config src m1 kv.1 kv.2) acc =
        Except.ok mm →
      ∀ kv ∈ mm, kv.2.originalKey ≠ "github_token" := by
  intro entries
  induction entries with
  | nil =>
    intro acc mm hacc heq
    have : acc = mm := Except.ok.inj heq
    rw [← this]
    exact hacc
  | cons kv rest ih =>
    intro acc mm hacc heq
    rw [List.foldlM_cons] at heq
    cases hpe : processEntry config src acc kv.1 kv.2 with
    | error e =>
      rw [hpe, except_bind_error] at heq
      exact Except.noConfusion heq
    | ok acc1 =>
      rw [hpe, except_bind_ok] at heq
      exact ih acc1 mm
        (processEntry_preserves config src s hx acc acc1 kv.1 kv.2 hpe hacc) heq

theorem processVariables_no_reserved (config : ProcessingConfig) (src : SourceType)
    (s : String) (hx : config.excludeList = buildExcludeList s)
    (entries : List (String × String)) (m : JsMap ProcessedVariable)
    (hpv : processVariables entries src config = Except.ok m) :
    ∀ kv ∈ m, kv.2.originalKey ≠ "github_token" := by
  unfold processVariables at hpv
  exact foldlM_no_reserved config src s hx entries [] m (by simp) hpv

theorem computeMerged_nil (strategy : String) :
    computeMerged [] [] strategy = Except.ok ([], []) := by
  unfold computeMerged
  split_ifs <;> rfl

theorem mergeAndExport_nil (strategy : String) (ov : Bool) (env : Env) :
    mergeAndExport [] [] strategy ov env = Except.ok (env, []) := by
  unfold mergeAndExport
  rw [computeMerged_nil]
  rfl

theorem string_empty_append (s : String) : "" ++ s = s := by
  cases s with
  | mk d => rfl

instance instDecidableNodupKeys {α : Type} (m : JsMap α) :
    Decidable (NodupKeys m) :=
  inferInstanceAs (Decidable ((m.map Prod.fst).Nodup))

theorem transformKey_noConvert (config : ProcessingConfig) (key k1 : String)
    (hstrip : stripKeyStep config key = Except.ok k1)
    (hconv : config.convert = "") :
    transformKey config key =
      Except.ok (if config.keyPrefix.length ≠ 0 then config.keyPrefix ++ k1 else k1) := by
  unfold transformKey
  rw [hstrip]
  simp [hconv]

/- ## The claims -/

/-- C1: For transformed mappings with unique keys, the merged mapping under
strategy prefer-secrets maps a final key to the secrets entry when present
there and to the vars entry otherwise; under prefer-vars symmetrically; and
an unset (empty) on_collision input resolves to prefer-secrets, under which
the merge behaves exactly as prefer-secrets. -/
theorem c1_merge_semantics (S V : JsMap ProcessedVariable) (k : String)
    (hS : NodupKeys S) (hV : NodupKeys V) :
    (computeMerged S V "prefer-secrets" = Except.ok (setAll (setAll [] V) S, []) ∧
      jsGet (setAll (setAll [] V) S) k =
        (match jsGet S k with
         | some e => some e
         | none => jsGet V k)) ∧
    (computeMerged S V "prefer-vars" = Except.ok (setAll (setAll [] S) V, []) ∧
      jsGet (setAll (setAll [] S) V) k =
        (match jsGet V k with
         | some e => some e
         | none => jsGet S k)) ∧
    resolveStrategy "" = "prefer-secrets" ∧
    computeMerged S V (resolveStrategy "") = computeMerged S V "prefer-secrets" := by
  refine ⟨⟨rfl, ?_⟩, ⟨rfl, ?_⟩, rfl, rfl⟩
  · rw [jsGet_setAll S _ k hS]
    cases hs : jsGet S k with
    | some e => rfl
    | none =>
      rw [jsGet_setAll V _ k hV]
      cases hv : jsGet V k with
      | some e => rfl
      | none => rfl
  · rw [jsGet_setAll V _ k hV]
    cases hv : jsGet V k with
    | some e => rfl
    | none =>
      rw [jsGet_setAll S _ k hS]
      cases hs : jsGet S k with
      | some e => rfl
      | none => rfl

/-- Witness for C1 at a concrete pair of mappings and key. -/
theorem c1_merge_semantics_witness :
    jsGet (setAll (setAll ([] : JsMap ProcessedVariable)
        [("A", ⟨"v1", SourceType.var, "A"⟩), ("B", ⟨"v2", SourceType.var, "B"⟩)])
        [("A", ⟨"s1", SourceType.secret, "A"⟩)]) "B" =
      (match jsGet [("A", ⟨"s1", SourceType.secret, "A"⟩)] "B" with
       | some e => some e
       | none => jsGet [("A", ⟨"v1", SourceType.var, "A"⟩),
           ("B", ⟨"v2", SourceType.var, "B"⟩)] "B") :=
  ((c1_merge_semantics [("A", ⟨"s1", SourceType.secret, "A"⟩)]
    [("A", ⟨"v1", SourceType.var, "A"⟩), ("B", ⟨"v2", SourceType.var, "B"⟩)]
    "B" (by decide) (by decide)).1).2

/-- C5: The warn strategy computes the same merged mapping as prefer-secrets,
the whole merge-and-export result differs only by the warning block, and with
unique secret keys exactly one warning is emitted per final key present in
both mappings, each warning naming the final key and both original keys. -/
theorem c5_warn_equivalence (S V : JsMap ProcessedVariable) (ov : Bool)
    (env : Env) (k : String) (hS : NodupKeys S) :
    computeMerged S V "warn" =
      Except.ok (setAll (setAll [] V) S, (detectCollisions S V).map collisionWarning) ∧
    computeMerged S V "prefer-secrets" =
      Except.ok (setAll (setAll [] V) S, []) ∧
    mergeAndExport S V "warn" ov env =
      (mergeAndExport S V "prefer-secrets" ov env).map
        (fun r => (r.1, (detectCollisions S V).map collisionWarning ++ r.2)) ∧
    ((detectCollisions S V).map CollisionRecord.finalKey).count k =
      (if (jsGet S k).isSome ∧ (jsGet V k).isSome then 1 else 0) := by
  refine ⟨rfl, rfl, rfl, ?_⟩
  rw [detectCollisions_keys]
  by_cases hs : (jsGet S k).isSome
  · by_cases hv : (jsGet V k).isSome
    · rw [if_pos ⟨hs, hv⟩]
      apply List.count_eq_one_of_mem (List.Nodup.filter _ hS)
      rw [List.mem_filter]
      exact ⟨mem_keys_of_jsGet_isSome S k hs, by simp [hv]⟩
    · rw [if_neg (fun hh => hv hh.2)]
      apply List.count_eq_zero_of_not_mem
      intro hmem
      rw [List.mem_filter] at hmem
      exact hv (by simpa using hmem.2)
  · rw [if_neg (fun hh => hs hh.1)]
    apply List.count_eq_zero_of_not_mem
    intro hmem
    rw [List.mem_filter] at hmem
    exact hs (jsGet_isSome_of_mem S k hmem.1)

/-- Witness for C5 at a concrete colliding pair of mappings. -/
theorem c5_warn_equivalence_witness :
    ((detectCollisions ([("A", ⟨"1", SourceType.secret, "SA"⟩)] : JsMap ProcessedVariable)
        ([("A", ⟨"2", SourceType.var, "VA"⟩)] : JsMap ProcessedVariable)).map
        CollisionRecord.finalKey).count "A" =
      (if (jsGet ([("A", ⟨"1", SourceType.secret, "SA"⟩)] : JsMap ProcessedVariable) "A").isSome ∧
          (jsGet ([("A", ⟨"2", SourceType.var, "VA"⟩)] : JsMap ProcessedVariable) "A").isSome
        then 1 else 0) :=
  (c5_warn_equivalence [("A", ⟨"1", SourceType.secret, "SA"⟩)]
    [("A", ⟨"2", SourceType.var, "VA"⟩)] true [] "A" (by decide)).2.2.2

/-- C3 (counterexample): the export loop tests JS truthiness, so a variable
that exists in the environment with the empty-string value is treated as
absent: with override false it is overwritten and an export line for it is
logged, contradicting the claim for that pre-existing variable. -/
theorem c3_counterexample :
    jsGet ([("K", "")] : Env) "K" = some "" ∧
    exportLoop ([("K", ⟨"V", SourceType.secret, "K"⟩)] : JsMap ProcessedVariable)
        false [("K", "")] =
      ([("K", "V")], [LogLine.info "Exported secret K"]) ∧
    jsGet (exportLoop ([("K", ⟨"V", SourceType.secret, "K"⟩)] : JsMap ProcessedVariable)
        false [("K", "")]).1 "K" ≠ some "" := by
  decide

/-- C3 (amended): for a merged entry with final key K whose pre-existing
environment value is non-empty (JS-truthy): with override false the
environment value of K is unchanged and the entry contributes only the skip
line, no export line; with override true the final value of K is the merged
entry's value. -/
theorem c3_override_semantics (pre post : JsMap ProcessedVariable)
    (e : ProcessedVariable) (k v : String) (env : Env)
    (hpre : k ∉ pre.map Prod.fst) (hpost : k ∉ post.map Prod.fst)
    (henv : jsGet env k = some v) (hv : v ≠ "") :
    (jsGet (exportLoop (pre ++ (k, e) :: post) false env).1 k = some v ∧
      (exportLoop (pre ++ (k, e) :: post) false env).2 =
        (exportLoop pre false env).2 ++
          LogLine.info ("Skip overwriting " ++ sourceStr e.source ++ " " ++ k) ::
          (exportLoop post false (exportLoop pre false env).1).2) ∧
    jsGet (exportLoop (pre ++ (k, e) :: post) true env).1 k = some e.value := by
  have hcons : ∀ (ov : Bool) (E : Env), exportLoop ((k, e) :: post) ov E =
      ((exportLoop post ov (exportStep ov (E, []) (k, e)).1).1,
        (exportStep ov (E, []) (k, e)).2 ++
          (exportLoop post ov (exportStep ov (E, []) (k, e)).1).2) := by
    intro ov E
    have h1 : exportLoop ((k, e) :: post) ov E =
        post.foldl (exportStep ov) (exportStep ov (E, []) (k, e)) := rfl
    rw [h1]
    exact exportLoop_acc ov post (exportStep ov (E, []) (k, e)).1
      (exportStep ov (E, []) (k, e)).2
  constructor
  · -- override = false
    have hE : jsGet (exportLoop pre false env).1 k = some v := by
      rw [exportLoop_env_not_mem pre false env k hpre]
      exact henv
    have htruthy : envTruthy (exportLoop pre false env).1 k = true := by
      simp [envTruthy, hE, hv]
    have hstep : exportStep false ((exportLoop pre false env).1, []) (k, e) =
        ((exportLoop pre false env).1,
          [LogLine.info ("Skip overwriting " ++ sourceStr e.source ++ " " ++ k)]) := by
      simp [exportStep, htruthy]
    rw [exportLoop_append pre ((k, e) :: post) false env,
      hcons false (exportLoop pre false env).1, hstep]
    constructor
    · rw [exportLoop_env_not_mem post false (exportLoop pre false env).1 k hpost]
      exact hE
    · simp
  · -- override = true
    have hE : jsGet (exportLoop pre true env).1 k = some v := by
      rw [exportLoop_env_not_mem pre true env k hpre]
      exact henv
    have htruthy : envTruthy (exportLoop pre true env).1 k = true := by
      simp [envTruthy, hE, hv]
    have hstep : (exportStep true ((exportLoop pre true env).1, []) (k, e)).1 =
        jsSet (exportLoop pre true env).1 k e.value := by
      simp [exportStep, htruthy]
    rw [exportLoop_append pre ((k, e) :: post) true env,
      hcons true (exportLoop pre true env).1, hstep]
    rw [exportLoop_env_not_mem post true _ k hpost]
    exact jsGet_jsSet_self _ k e.value

/-- Witness for C3 (amended) at a concrete environment and merged entry. -/
theorem c3_override_semantics_witness :
    (jsGet (exportLoop ([] ++ ("K", ⟨"V2", SourceType.secret, "ORIG"⟩) :: [])
        false [("K", "V1")]).1 "K" = some "V1" ∧
      (exportLoop ([] ++ ("K", ⟨"V2", SourceType.secret, "ORIG"⟩) :: [])
        false [("K", "V1")]).2 =
        (exportLoop [] false [("K", "V1")]).2 ++
          LogLine.info ("Skip overwriting " ++
            sourceStr (⟨"V2", SourceType.secret, "ORIG"⟩ : ProcessedVariable).source ++
            " " ++ "K") ::
          (exportLoop [] false (exportLoop [] false [("K", "V1")]).1).2) ∧
    jsGet (exportLoop ([] ++ ("K", ⟨"V2", SourceType.secret, "ORIG"⟩) :: [])
        true [("K", "V1")]).1 "K" =
      some (⟨"V2", SourceType.secret, "ORIG"⟩ : ProcessedVariable).value :=
  c3_override_semantics [] [] ⟨"V2", SourceType.secret, "ORIG"⟩ "K" "V1"
    [("K", "V1")] (by decide) (by decide) rfl (by decide)

/-- C4 (counterexample): with remove_prefix "." the key "AB" does not start
with "." as a literal (case-insensitively), yet the transformed key is "B",
not the unchanged "AB": the pattern is compiled as a regex, where "." matches
any character. -/
theorem c4_counterexample :
    transformKey ⟨none, [], ".", "", "", true⟩ "AB" = Except.ok "B" ∧
    startsWithCI "AB" "." = false ∧
    (Except.ok "B" : Except String String) ≠ Except.ok "AB" := by
  decide

/-- C4 (amended): remove_prefix is compiled as a case-insensitive
anchored-at-start regular expression, not matched literally; when every
character of P is a regex literal this coincides with case-insensitive
literal prefix matching: the transformed key is Q + K[len(P):] when K starts
with P case-insensitively, and Q + K (the entry kept, key unchanged)
otherwise. -/
theorem c4_removePrefix_literal (key rp q : String) (cp : Bool)
    (hlen : rp.length ≠ 0) (hlit : allLiteralChars rp = true) :
    transformKey ⟨none, [], rp, q, "", cp⟩ key =
      Except.ok (if startsWithCI key rp = true then q ++ strDrop key rp.length
                 else q ++ key) := by
  have hstrip := stripKeyStep_literal ⟨none, [], rp, q, "", cp⟩ key hlen hlit
  rw [transformKey_noConvert ⟨none, [], rp, q, "", cp⟩ key _ hstrip rfl]
  by_cases hq : (q : String).length = 0
  · have hq1 : q = "" := string_eq_empty_of_length_eq_zero q hq
    subst hq1
    by_cases hsw : startsWithCI key rp = true <;>
      simp [hsw, string_empty_append]
  · by_cases hsw : startsWithCI key rp = true <;> simp [hq, hsw]

/-- Witness for C4 (amended) at a concrete key, pattern and prefix. -/
theorem c4_removePrefix_literal_witness :
    transformKey ⟨none, [], "FOO", "P_", "", true⟩ "FooBar" =
      Except.ok (if startsWithCI "FooBar" "FOO" = true then
        "P_" ++ strDrop "FooBar" ("FOO" : String).length else "P_" ++ "FooBar") :=
  c4_removePrefix_literal "FooBar" "FOO" "P_" true (by decide) (by decide)

/-- C6: when the convert mode is recognized, convert_prefix false yields the
configured prefix with its casing untouched followed by the conversion
applied only to the portion of the key after the prefix, while convert_prefix
true applies the conversion to the entire key including the prefix. -/
theorem c6_convertPrefix_scope (config : ProcessingConfig) (key r : String)
    (f : String → String) (hf : convertTypes config.convert = some f)
    (hstrip : stripKeyStep config key = Except.ok r) :
    transformKey config key =
      Except.ok (if config.convertPrefix then
        f (if config.keyPrefix.length ≠ 0 then config.keyPrefix ++ r else r)
      else config.keyPrefix ++ f r) := by
  unfold transformKey
  rw [hstrip]
  have hlen : config.convert.length ≠ 0 := convertTypes_ne_empty config.convert f hf
  cases hcp : config.convertPrefix with
  | true => simp [hlen, hf, hcp]
  | false =>
    simp [hlen, hf, hcp]
    rw [show (if config.keyPrefix.length = 0 then r else config.keyPrefix ++ r) =
        (if config.keyPrefix.length ≠ 0 then config.keyPrefix ++ r else r) from by
          by_cases h : config.keyPrefix.length = 0 <;> simp [h],
      jsReplaceFirst_append config.keyPrefix r]

/-- Witness for C6 at a concrete prefixed key with the lower mode. -/
theorem c6_convertPrefix_scope_witness :
    transformKey ⟨none, [], "", "API_", "lower", false⟩ "X_Y" =
      Except.ok (if (false : Bool) then
        String.toLower (if ("API_" : String).length ≠ 0 then "API_" ++ "X_Y" else "X_Y")
      else "API_" ++ String.toLower "X_Y") :=
  c6_convertPrefix_scope ⟨none, [], "", "API_", "lower", false⟩ "X_Y" "X_Y"
    String.toLower rfl rfl

/-- C7: the reserved name github_token always matches the exclude filter
built by run, whatever exclude input the caller supplies; the caller's
comma-separated patterns are appended to the reserved name rather than
replacing it; and consequently no entry whose raw key is github_token
survives processVariables under a run-built exclude list. -/
theorem c7_reserved_exclude :
    (∀ s : String, someMatch (buildExcludeList s) "github_token" = Except.ok true) ∧
    (∀ s : String, s.length ≠ 0 →
      buildExcludeList s = "github_token" :: (jsSplitComma s).map jsTrim) ∧
    (∀ (entries : List (String × String)) (src : SourceType)
        (config : ProcessingConfig) (s : String) (m : JsMap ProcessedVariable),
      config.excludeList = buildExcludeList s →
      processVariables entries src config = Except.ok m →
      ∀ kv ∈ m, kv.2.originalKey ≠ "github_token") := by
  refine ⟨someMatch_github, ?_, ?_⟩
  · intro s hs
    simp [buildExcludeList, hs]
  · intro entries src config s m hx hpv
    exact processVariables_no_reserved config src s hx entries m hpv

/-- Witness for C7 at a concrete caller-supplied exclude input. -/
theorem c7_reserved_exclude_witness :
    buildExcludeList "a,b" = "github_token" :: ((jsSplitComma "a,b").map jsTrim) :=
  c7_reserved_exclude.2.1 "a,b" (by decide)

/-- C8: contradicted by the legacy entry point kept in the repository: its
run logs each secret's value (the characters joined by commas) through the
informational logger before exporting, so the log output depends on the
values — two runs differing only in a secret's value produce different
logs, and the value's rendering appears in the log. -/
theorem c8_export_log_leak :
    (Legacy.run [("A", "xy")] "" []).2 ≠ (Legacy.run [("A", "zw")] "" []).2 ∧
    LogLine.info (jsSplitJoin "xy") ∈ (Legacy.run [("A", "xy")] "" []).2 ∧
    jsSplitJoin "xy" = "x,y" := by
  decide

/-- C9: the unknown-convert-mode check runs per surviving entry, not up
front: with an unrecognized non-empty convert mode the run completes
successfully with no exports when both mappings are empty, and
processVariables yields an empty mapping without error when every entry is
dropped by the include/exclude filters. -/
theorem c9_convert_check_lazy :
    (∀ (inp : RunInput) (env : Env),
      inp.convert ≠ "" → convertTypes inp.convert = none →
      inp.secrets = [] → inp.vars = [] →
      (inp.onCollisionStr = "" ∨ inp.onCollisionStr ∈ validStrategies) →
      runModel inp env = (env, [], none)) ∧
    (∀ (config : ProcessingConfig) (entries : List (String × String))
        (src : SourceType),
      config.convert ≠ "" → convertTypes config.convert = none →
      (∀ kv ∈ entries, filtersDrop config kv.1 = Except.ok true) →
      processVariables entries src config = Except.ok []) := by
  constructor
  · intro inp env _ _ hs hv hval
    have hcond : ¬(inp.onCollisionStr ≠ "" ∧
        resolveStrategy inp.onCollisionStr ∉ validStrategies) := by
      rcases hval with h | h
      · intro hh
        exact hh.1 h
      · intro hh
        apply hh.2
        unfold resolveStrategy
        split
        · decide
        · exact h
    have h1 : processVariables [] SourceType.secret (configOf inp) =
        Except.ok [] := rfl
    have h2 : processVariables [] SourceType.var (configOf inp) =
        Except.ok [] := rfl
    have hrb : runBody inp env = Except.ok (env, []) := by
      unfold runBody
      rw [if_neg hcond, hs, hv]
      simp only [h1, h2, except_bind_ok]
      exact mergeAndExport_nil _ _ env
    unfold runModel
    rw [hrb]
  · intro config entries src _ _ hdrop
    exact processVariables_drop_all config src entries hdrop

/-- Witness for C9: a bogus convert mode with empty mappings succeeds, and
with one entry dropped by the include filter processVariables succeeds. -/
theorem c9_convert_check_lazy_witness :
    runModel ⟨[], [], "", "", "", "", "bogus", "", "", ""⟩ [] = ([], [], none) ∧
    processVariables [("Y", "v")] SourceType.secret
        ⟨some ["X"], ["github_token"], "", "", "bogus", true⟩ = Except.ok [] :=
  ⟨c9_convert_check_lazy.1 ⟨[], [], "", "", "", "", "bogus", "", "", ""⟩ []
      (by decide) rfl rfl rfl (Or.inl rfl),
    c9_convert_check_lazy.2 ⟨some ["X"], ["github_token"], "", "", "bogus", true⟩
      [("Y", "v")] SourceType.secret (by decide) rfl (by decide)⟩

/-- C10: include, exclude and remove_prefix are compiled as regular
expressions per key: with one raw key and the invalid pattern "(" in the
include list, the exclude list, or the remove_prefix, the whole run fails
through the top-level handler with the regex error message and nothing is
exported, while the same invalid pattern with empty mappings is never
compiled and the run succeeds. -/
theorem c10_invalid_pattern_failure :
    runModel ⟨[("A", "v")], [], "", "", "(", "", "", "", "", ""⟩ [] =
      ([], [], some (invalidRegexMessage "(")) ∧
    runModel ⟨[("A", "v")], [], "", "", "", "(", "", "", "", ""⟩ [] =
      ([], [], some (invalidRegexMessage "(")) ∧
    runModel ⟨[("A", "v")], [], "", "(", "", "", "", "", "", ""⟩ [] =
      ([], [], some (invalidRegexMessage "^(")) ∧
    runModel ⟨[], [], "", "", "(", "", "", "", "", ""⟩ [] = ([], [], none) := by
  decide

/-- C2: under the error strategy the run fails exactly when some final key is
present in both transformed mappings; on failure the environment is
unchanged, no log line was emitted, and the failure message is the collision
message built from the full collision list (one detail line per collision
naming the final key and both original keys). -/
theorem c2_error_strategy (inp : RunInput) (env : Env)
    (S V : JsMap ProcessedVariable)
    (hoc : inp.onCollisionStr = "error")
    (hS : processVariables inp.secrets SourceType.secret (configOf inp) = Except.ok S)
    (hV : processVariables inp.vars SourceType.var (configOf inp) = Except.ok V) :
    (((runModel inp env).2.2).isSome ↔
      ∃ k, (jsGet S k).isSome ∧ (jsGet V k).isSome) ∧
    (∀ msg, (runModel inp env).2.2 = some msg →
      (runModel inp env).1 = env ∧ (runModel inp env).2.1 = [] ∧
      msg = collisionErrorMessage (detectCollisions S V)) := by
  have hcond : ¬(inp.onCollisionStr ≠ "" ∧
      resolveStrategy inp.onCollisionStr ∉ validStrategies) := by
    rw [hoc]
    decide
  have hres : resolveStrategy inp.onCollisionStr = "error" := by
    rw [hoc]
    decide
  have hrb : runBody inp env =
      mergeAndExport S V "error" (overrideOf inp) env := by
    unfold runBody
    rw [if_neg hcond]
    simp only [hS, except_bind_ok, hV, hres]
  cases hdet : detectCollisions S V with
  | nil =>
    have hnone : ¬∃ k, (jsGet S k).isSome ∧ (jsGet V k).isSome :=
      (detectCollisions_eq_nil_iff S V).mp hdet
    have hcm : computeMerged S V "error" =
        Except.ok (setAll (setAll [] V) S, []) := by
      simp [computeMerged, hdet]
    have hme : mergeAndExport S V "error" (overrideOf inp) env =
        Except.ok ((exportLoop (setAll (setAll [] V) S) (overrideOf inp) env).1,
          [] ++ (exportLoop (setAll (setAll [] V) S) (overrideOf inp) env).2) := by
      unfold mergeAndExport
      rw [hcm]
      rfl
    have hrm : (runModel inp env).2.2 = none := by
      unfold runModel
      rw [hrb, hme]
    constructor
    · rw [hrm]
      simp [hnone]
    · intro msg hmsg
      rw [hrm] at hmsg
      exact Option.noConfusion hmsg
  | cons c cs =>
    have hne : detectCollisions S V ≠ [] := by
      rw [hdet]
      simp
    have hex : ∃ k, (jsGet S k).isSome ∧ (jsGet V k).isSome := by
      by_contra hno
      exact hne ((detectCollisions_eq_nil_iff S V).mpr hno)
    have hcm : computeMerged S V "error" =
        Except.error (collisionErrorMessage (detectCollisions S V)) := by
      simp [computeMerged, hdet]
    have hme : mergeAndExport S V "error" (overrideOf inp) env =
        Except.error (collisionErrorMessage (detectCollisions S V)) := by
      unfold mergeAndExport
      rw [hcm]
      rfl
    have hrm : runModel inp env =
        (env, [], some (collisionErrorMessage (detectCollisions S V))) := by
      unfold runModel
      rw [hrb, hme]
    rw [hrm]
    constructor
    · simp [hex]
    · intro msg hmsg
      have h1 := (Option.some.inj hmsg).symm
      rw [hdet] at h1
      exact ⟨rfl, rfl, h1⟩

/-- Witness for C2 at a concrete colliding input under the error strategy. -/
theorem c2_error_strategy_witness :
    ((runModel ⟨[("A", "1")], [("A", "2")], "", "", "", "", "", "", "", "error"⟩
        []).2.2).isSome ↔
      ∃ k, (jsGet ([("A", ⟨"1", SourceType.secret, "A"⟩)] : JsMap ProcessedVariable)
          k).isSome ∧
        (jsGet ([("A", ⟨"2", SourceType.var, "A"⟩)] : JsMap ProcessedVariable)
          k).isSome :=
  (c2_error_strategy ⟨[("A", "1")], [("A", "2")], "", "", "", "", "", "", "", "error"⟩
    [] [("A", ⟨"1", SourceType.secret, "A"⟩)] [("A", ⟨"2", SourceType.var, "A"⟩)]
    rfl (by decide) (by decide)).1

end SecretsToEnv
